import Mathlib

/-!
Shallow embedding of the accident-data pipeline of `src/part02/analysis.py`
(functions `load_data` and `parse_data`) and proofs of its specification
properties.

A dataframe is modelled as a list of rows; a row is an association list from
column names to cell values.  Pandas column assignment (`df[c] = v`) replaces
the cells of an existing column, or appends a new column; this is mirrored by
`rowSet`.  The pandas dtype of a column is not stored separately: the cells a
column can hold after each pipeline stage determine it (raw text columns hold
`Value.str`/`Value.missing`, a column produced by `pd.to_numeric` holds
`Value.num`/`Value.missing`, a column produced by `pd.to_datetime` holds
`Value.date`/`Value.missing`), and the one dtype-sensitive operation — the
`.str` accessor, which raises on a non-object column — is modelled by the
gate of `applyCol`.
-/

/-- A cell of the dataframe: raw text, a parsed number (`pd.to_numeric`
result), a parsed calendar date (`pd.to_datetime` result), or a missing
value (`NaN`/`NaT`). -/
inductive Value where
  | str (s : String)
  | num (q : ℚ)
  | date (y m d : ℕ)
  | missing
  deriving DecidableEq, Repr

/-- Whether a cell is raw input text (a string or a missing value), i.e. a
cell of an object-dtype column as produced by `load_data`. -/
def Value.isRaw : Value → Bool
  | .str _ => true
  | .missing => true
  | _ => false

/-- A dataframe row: column name / cell value pairs. -/
abbrev Row : Type := List (String × Value)

/-- Read a column of a row (`df[c]` restricted to one row): the first cell
carrying that column name, if any. -/
def rowGet (r : Row) (c : String) : Option Value :=
  (r.find? (fun p => p.1 == c)).map (fun p => p.2)

/-- Replace the value of every cell of column `c` (helper of `rowSet`). -/
def rowSetAll (r : Row) (c : String) (v : Value) : Row :=
  r.map (fun p => if p.1 == c then (c, v) else p)

/-- Column assignment `df[c] = v` restricted to one row: overwrite the column
if present, append it at the end otherwise. -/
def rowSet (r : Row) (c : String) (v : Value) : Row :=
  if r.any (fun p => p.1 == c) then rowSetAll r c v
  else r ++ [(c, v)]

/-- The 64 column names of the accident CSV extracts (`headers` in
`load_data`). -/
def headers : List String :=
  ["p1", "p36", "p37", "p2a", "weekday(p2a)", "p2b", "p6", "p7", "p8", "p9", "p10",
   "p11", "p12", "p13a", "p13b", "p13c", "p14", "p15", "p16", "p17", "p18", "p19",
   "p20", "p21", "p22", "p23", "p24", "p27", "p28", "p34", "p35", "p39", "p44", "p45a",
   "p47", "p48a", "p49", "p50a", "p50b", "p51", "p52", "p53", "p55a", "p57", "p58", "a",
   "b", "d", "e", "f", "g", "h", "i", "j", "k", "l", "n", "o", "p", "q", "r", "s", "t",
   "p5a"]

/-- The fixed 14-entry table mapping the 2-character file-name code to the
region code (`regions` in `load_data`). -/
def regions : List (String × String) :=
  [("00", "PHA"), ("01", "STC"), ("02", "JHC"), ("03", "PLK"), ("04", "ULK"),
   ("05", "HKK"), ("06", "JHM"), ("07", "MSK"), ("14", "OLK"), ("15", "ZLK"),
   ("16", "VYS"), ("17", "PAK"), ("18", "LBK"), ("19", "KVK")]

/-- The columns made categorical by `parse_data`. -/
def catCols : List String := ["p47", "h", "i", "j", "k", "p", "q", "t"]

/-- The columns made numeric by `parse_data`. -/
def numericCols : List String := ["a", "b", "d", "e", "f", "g", "l", "n", "o"]

/-- All columns touched by the `parse_data` coercions. -/
def pipelineCols : List String := "p2a" :: (catCols ++ numericCols)

/-- Value of a digit string, `none` when empty or holding a non-digit
character. -/
def parseNatDigits (cs : List Char) : Option ℕ :=
  if cs.isEmpty then none
  else if cs.all Char.isDigit then
    some (cs.foldl (fun a ch => 10 * a + (ch.toNat - 48)) 0)
  else none

/-- Integer value of a digit list (0 for non-digit input; guarded by
`parseNatDigits` at call sites). -/
def natVal (cs : List Char) : ℚ :=
  ((cs.foldl (fun a ch => 10 * a + (ch.toNat - 48)) 0 : ℕ) : ℚ)

/-- Fractional value of the digit list after the decimal point. -/
def fracVal (cs : List Char) : ℚ :=
  cs.foldr (fun ch a => (a + ((ch.toNat - 48 : ℕ) : ℚ)) / 10) 0

/-- Split a character list on a separator character (mirrors
`str.split`). -/
def splitOnChar (sep : Char) : List Char → List (List Char)
  | [] => [[]]
  | ch :: rest =>
    match splitOnChar sep rest with
    | [] => if ch == sep then [[], []] else [[ch]]
    | g :: gs => if ch == sep then [] :: g :: gs else (ch :: g) :: gs

/-- Replace every occurrence of one character by another (the
`str.replace(",", ".")` of `parse_data`, whose pattern is a single
character). -/
def replaceChar (a b : Char) (cs : List Char) : List Char :=
  cs.map (fun ch => if ch == a then b else ch)

/-- An unsigned decimal numeral: digits, optionally followed by a decimal
point and further digits, with at least one digit present. -/
def parseUnsigned (cs : List Char) : Option ℚ :=
  match splitOnChar '.' cs with
  | [a] => (parseNatDigits a).map (fun n => (n : ℚ))
  | [a, b] =>
    if a.isEmpty && b.isEmpty then none
    else if a.all Char.isDigit && b.all Char.isDigit then
      some (natVal a + fracVal b)
    else none
  | _ => none

/-- A decimal numeral with optional sign, as accepted by `pd.to_numeric`:
the fractional part of the value returned equals the written decimal. -/
def parseDecimal (cs : List Char) : Option ℚ :=
  match cs with
  | [] => none
  | ch :: rest =>
    if ch == '-' then (parseUnsigned rest).map (fun q => -q)
    else if ch == '+' then parseUnsigned rest
    else parseUnsigned cs

/-- Gregorian leap-year test. -/
def isLeap (y : ℕ) : Bool :=
  (y % 4 == 0 && y % 100 != 0) || (y % 400 == 0)

/-- Number of days of a month. -/
def daysInMonth (y m : ℕ) : ℕ :=
  if m == 2 then (if isLeap y then 29 else 28)
  else if m == 4 || m == 6 || m == 9 || m == 11 then 30
  else 31

/-- Parse a date in the fixed `%Y-%m-%d` format of `parse_data`: three
dash-separated digit groups forming a valid calendar date. -/
def parseDate (cs : List Char) : Option Value :=
  match splitOnChar '-' cs with
  | [ys, ms, ds] =>
    match parseNatDigits ys, parseNatDigits ms, parseNatDigits ds with
    | some y, some m, some d =>
      if 1 ≤ m && m ≤ 12 && 1 ≤ d && d ≤ daysInMonth y m then
        some (Value.date y m d)
      else none
    | _, _, _ => none
  | _ => none

/-- The `.str.replace(",", ".")` cell transformation: on a string cell it
replaces the decimal comma; the accessor maps a non-string element of an
object column to a missing value. -/
def strReplaceCell : Value → Value
  | .str s => .str (String.mk (replaceChar ',' '.' s.data))
  | _ => .missing

/-- The `pd.to_numeric(…, errors="coerce")` cell transformation: parse a
string cell as a decimal numeral, coercing failures to missing. -/
def toNumericCell : Value → Value
  | .str s =>
    match parseDecimal s.data with
    | some q => .num q
    | none => .missing
  | .num q => .num q
  | _ => .missing

/-- The `pd.to_datetime(…, format="%Y-%m-%d")` cell transformation: a string
cell must match the format (otherwise the call raises), a missing cell
becomes `NaT`, an already-parsed date is kept, and a number cannot match the
format.  The `none` case models the `KeyError` of reading an absent
column. -/
def dateTr : Option Value → Except String Value
  | none => .error "KeyError: p2a"
  | some (Value.str s) =>
    match parseDate s.data with
    | some v => .ok v
    | none => .error ("time data " ++ s ++ " does not match format %Y-%m-%d")
  | some Value.missing => .ok Value.missing
  | some (Value.date y m d) => .ok (Value.date y m d)
  | some (Value.num _) => .error "cannot parse a number with format %Y-%m-%d"

/-- The `astype("category")` cell transformation: values are kept as they
are (only the dtype changes); reading an absent column raises
`KeyError`. -/
def catTr : Option Value → Except String Value
  | none => .error "KeyError: categorical column"
  | some v => .ok v

/-- The numeric-coercion cell transformation of `parse_data`:
`str.replace` then `to_numeric`; reading an absent column raises
`KeyError`. -/
def numTr : Option Value → Except String Value
  | none => .error "KeyError: numeric column"
  | some v => .ok (toNumericCell (strReplaceCell v))

/-- Dtype gate of the `.str` accessor: a column holding a parsed number or
date is of non-object dtype (float64 / datetime64), on which `.str`
raises `AttributeError`. -/
def numGate : Option Value → Bool
  | some (Value.num _) => true
  | some (Value.date _ _ _) => true
  | _ => false

/-- Gate of the operations that accept every column dtype. -/
def falseGate : Option Value → Bool := fun _ => false

/-- Apply a fallible cell transformation to each row, stopping at the first
failing row (the exception of the underlying pandas call propagates). -/
def mapRowsM (f : Row → Except String Row) : List Row → Except String (List Row)
  | [] => .ok []
  | r :: rs =>
    match f r with
    | .error e => .error e
    | .ok r2 =>
      match mapRowsM f rs with
      | .error e => .error e
      | .ok rs2 => .ok (r2 :: rs2)

/-- One column-coercion statement of `parse_data`
(`df[c] = op(df[c])`): check the dtype gate of the column, then rewrite the
column cell of every row. -/
def applyCol (gate : Option Value → Bool) (tr : Option Value → Except String Value)
    (c : String) (df : List Row) : Except String (List Row) :=
  if df.any (fun r => gate (rowGet r c)) then
    .error ("AttributeError: can only use .str accessor with string values: " ++ c)
  else
    mapRowsM (fun r => Except.map (fun v => rowSet r c v) (tr (rowGet r c))) df

/-- The `for col in cols:` loops of `parse_data`: apply a column coercion to
each listed column in order. -/
def applyCols (gate : Option Value → Bool) (tr : Option Value → Except String Value)
    (cs : List String) (df : List Row) : Except String (List Row) :=
  cs.foldlM (fun d c => applyCol gate tr c d) df

/-- Total row-level image of a column-coercion loop (meaningful on rows on
which the fallible version succeeds). -/
def colsFold (trf : Option Value → Value) (cs : List String) (r : Row) : Row :=
  cs.foldl (fun a c => rowSet a c (trf (rowGet a c))) r

/-- Total cell-level image of the date coercion. -/
def cellDate (ov : Option Value) : Value :=
  match ov with
  | some (Value.str s) =>
    match parseDate s.data with
    | some v => v
    | none => Value.missing
  | some (Value.date y m d) => Value.date y m d
  | _ => Value.missing

/-- Total cell-level image of the categorical coercion. -/
def catTotal (ov : Option Value) : Value := ov.getD Value.missing

/-- Total cell-level image of the numeric coercion. -/
def numTotal (ov : Option Value) : Value :=
  toNumericCell (strReplaceCell (ov.getD Value.missing))

/-- Total row-level image of the whole `parse_data` coercion pipeline. -/
def normRow (r : Row) : Row :=
  colsFold numTotal numericCols
    (colsFold catTotal catCols (rowSet r "p2a" (cellDate (rowGet r "p2a"))))

/-- Keep the rows whose `p1` cell was not seen before
(`drop_duplicates(subset=["p1"])`, keep="first"). -/
def dedupAux (seen : List (Option Value)) : List Row → List Row
  | [] => []
  | r :: rs =>
    if rowGet r "p1" ∈ seen then dedupAux seen rs
    else r :: dedupAux (rowGet r "p1" :: seen) rs

/-- The deduplication step of `parse_data`. -/
def drop_duplicatesP1 (df : List Row) : List Row := dedupAux [] df

/-- Stand-in for `memory_usage(deep=True).sum()`: a size measure of the
frame (total number of cells), reported only when verbose. -/
def memUsage (df : List Row) : ℕ :=
  (df.map (fun r => r.length)).sum

/-- Whether an `Except` result is a success. -/
def isOkB {α : Type} : Except String α → Bool
  | .ok _ => true
  | .error _ => false

/-- The data path of `parse_data` in `src/part02/analysis.py`: parse the
date column, tag the categorical columns, coerce the numeric columns, and
deduplicate on the accident id; the first failing column operation
propagates its exception. -/
def parse_dataRes (df : List Row) : Except String (List Row) :=
  (applyCol falseGate dateTr "p2a" df).bind (fun d1 =>
    (applyCols falseGate catTr catCols d1).bind (fun d2 =>
      (applyCols numGate numTr numericCols d2).map drop_duplicatesP1))

/-- The `parse_data` function of `src/part02/analysis.py`: the body works on
a copy of the argument (value semantics here; the heap model below makes the
copy explicit) and the verbose flag only adds the two `print_size` reports,
the second of which is reached only when no coercion raised.  The pair holds
the result (or the propagated exception) and the diagnostic output. -/
def parse_data (df : List Row) (verbose : Bool) :
    Except String (List Row) × List String :=
  (parse_dataRes df,
    (if verbose then ["orig_size=" ++ toString (memUsage df) ++ " MB"] else [])
      ++ (match parse_dataRes df with
          | .ok out =>
            if verbose then ["new_size=" ++ toString (memUsage out) ++ " MB"] else []
          | .error _ => []))

/-- An inner-archive member: CSV file name and its rows of cells (the text
between the separators, as `pd.read_csv` sees it). -/
abbrev Extract : Type := String × List (List String)

/-- One CSV line under the declared header list: cell `i` is named by header
`i`; an empty or absent trailing cell is a missing value; cells beyond the
declared headers are not part of the frame. -/
def rowOfCells (cells : List String) : Row :=
  (List.range headers.length).map (fun i =>
    (headers.getD i "",
     match cells.getD i "" with
     | "" => Value.missing
     | s => Value.str s))

/-- Load one extract of an inner archive: resolve the region from the
2-character file-name code; skip the extract when the code is unknown;
otherwise parse the rows and tag each with the region column. -/
def loadExtract (e : Extract) : List Row :=
  match regions.lookup (e.1.take 2) with
  | none => []
  | some reg => (e.2.map rowOfCells).map (fun r => rowSet r "region" (Value.str reg))

/-- The `load_data` function of `src/part02/analysis.py`: walk every inner
archive of the outer archive, load each contained extract, and concatenate
everything into one frame. -/
def load_data (archive : List (List Extract)) : List Row :=
  (archive.map (fun inner => (inner.map loadExtract).flatten)).flatten

/-! ### Access lemmas for rows -/

theorem rowGet_cons (p : String × Value) (r : Row) (c : String) :
    rowGet (p :: r) c = if p.1 == c then some p.2 else rowGet r c := by
  unfold rowGet
  rw [List.find?_cons]
  cases hp : (p.1 == c) with
  | true => simp [hp]
  | false => simp [hp]

theorem rowGet_rowSetAll_self (r : Row) (c : String) (v : Value)
    (h : r.any (fun p => p.1 == c) = true) :
    rowGet (rowSetAll r c v) c = some v := by
  induction r with
  | nil => simp [List.any_nil] at h
  | cons p ps ih =>
    rw [List.any_cons] at h
    cases hp : (p.1 == c) with
    | true =>
      simp only [rowSetAll, List.map_cons, hp, if_true]
      rw [rowGet_cons]
      simp
    | false =>
      rw [hp, Bool.false_or] at h
      simp only [rowSetAll, List.map_cons, hp, Bool.false_eq_true, if_false]
      rw [rowGet_cons]
      simp only [hp, Bool.false_eq_true, if_false]
      exact ih h

theorem rowGet_append_single (r : Row) (c : String) (v : Value)
    (h : r.any (fun p => p.1 == c) = false) :
    rowGet (r ++ [(c, v)]) c = some v := by
  induction r with
  | nil => simp [rowGet]
  | cons p ps ih =>
    rw [List.any_cons] at h
    cases hp : (p.1 == c) with
    | true => rw [hp] at h; simp at h
    | false =>
      rw [hp, Bool.false_or] at h
      rw [List.cons_append, rowGet_cons]
      simp only [hp, Bool.false_eq_true, if_false]
      exact ih h

theorem rowGet_rowSet_self (r : Row) (c : String) (v : Value) :
    rowGet (rowSet r c v) c = some v := by
  unfold rowSet
  cases ha : r.any (fun p => p.1 == c) with
  | true =>
    rw [if_pos rfl]
    exact rowGet_rowSetAll_self r c v ha
  | false =>
    rw [if_neg (by simp)]
    exact rowGet_append_single r c v ha

theorem rowGet_rowSetAll_ne (r : Row) (c c2 : String) (v : Value)
    (h : c2 ≠ c) :
    rowGet (rowSetAll r c v) c2 = rowGet r c2 := by
  have hcc : (c == c2) = false := by
    simp only [beq_eq_false_iff_ne, ne_eq]
    exact fun hh => h hh.symm
  induction r with
  | nil => rfl
  | cons p ps ih =>
    cases hp : (p.1 == c) with
    | true =>
      have hpc : p.1 = c := by simpa using hp
      simp only [rowSetAll, List.map_cons, hp, if_true]
      rw [rowGet_cons, rowGet_cons]
      have h2 : (p.1 == c2) = false := by rw [hpc]; exact hcc
      simp only [hcc, h2, Bool.false_eq_true, if_false]
      exact ih
    | false =>
      simp only [rowSetAll, List.map_cons, hp, Bool.false_eq_true, if_false]
      rw [rowGet_cons, rowGet_cons]
      cases hq : (p.1 == c2) with
      | true => simp [hq]
      | false =>
        simp only [hq, Bool.false_eq_true, if_false]
        exact ih

theorem rowGet_rowSet_ne (r : Row) (c c2 : String) (v : Value)
    (h : c2 ≠ c) :
    rowGet (rowSet r c v) c2 = rowGet r c2 := by
  unfold rowSet
  cases ha : r.any (fun p => p.1 == c) with
  | true =>
    rw [if_pos rfl]
    exact rowGet_rowSetAll_ne r c c2 v h
  | false =>
    rw [if_neg (by simp)]
    unfold rowGet
    rw [List.find?_append]
    have h1 : (c == c2) = false := by
      simp only [beq_eq_false_iff_ne, ne_eq]
      exact fun hh => h hh.symm
    simp [List.find?, h1]

/-! ### Lemmas for the fallible row map -/

theorem mapRowsM_eq_map (f : Row → Except String Row) (g : Row → Row)
    (df : List Row) (h : ∀ r ∈ df, f r = .ok (g r)) :
    mapRowsM f df = .ok (df.map g) := by
  induction df with
  | nil => rfl
  | cons r rs ih =>
    have hr : f r = .ok (g r) := h r (List.mem_cons_self r rs)
    have hrs : mapRowsM f rs = .ok (rs.map g) :=
      ih (fun x hx => h x (List.mem_cons_of_mem r hx))
    simp [mapRowsM, hr, hrs]

theorem mapRowsM_mem_forward (f : Row → Except String Row)
    (df out : List Row) (hout : mapRowsM f df = .ok out) :
    ∀ r ∈ df, ∃ r2 ∈ out, f r = .ok r2 := by
  induction df generalizing out with
  | nil => intro r hr; simp at hr
  | cons p ps ih =>
    intro r hr
    rw [mapRowsM] at hout
    cases hfp : f p with
    | error e => rw [hfp] at hout; exact absurd hout (by simp)
    | ok p2 =>
      rw [hfp] at hout
      cases hrec : mapRowsM f ps with
      | error e => rw [hrec] at hout; exact absurd hout (by simp)
      | ok ps2 =>
        rw [hrec] at hout
        have hout2 : p2 :: ps2 = out := by
          simpa using hout
        rcases List.mem_cons.mp hr with h1 | h2
        · exact ⟨p2, by rw [← hout2]; exact List.mem_cons_self p2 ps2, h1 ▸ hfp⟩
        · rcases ih ps2 hrec r h2 with ⟨r2, hr2, hfr⟩
          exact ⟨r2, by rw [← hout2]; exact List.mem_cons_of_mem p2 hr2, hfr⟩

theorem mapRowsM_not_ok (f : Row → Except String Row) (df : List Row)
    (r : Row) (hr : r ∈ df) (hf : ∀ r2, f r ≠ .ok r2) :
    ∀ out, mapRowsM f df ≠ .ok out := by
  induction df with
  | nil => simp at hr
  | cons p ps ih =>
    intro out hout
    rw [mapRowsM] at hout
    cases hfp : f p with
    | error e => rw [hfp] at hout; exact absurd hout (by simp)
    | ok p2 =>
      rw [hfp] at hout
      rcases List.mem_cons.mp hr with h1 | h2
      · exact hf p2 (h1 ▸ hfp)
      · cases hrec : mapRowsM f ps with
        | error e => rw [hrec] at hout; exact absurd hout (by simp)
        | ok ps2 => exact ih h2 ps2 hrec

theorem mapRowsM_find? (f : Row → Except String Row) (p p2 : Row → Bool)
    (df out : List Row) (hout : mapRowsM f df = .ok out)
    (hrel : ∀ r r2, r ∈ df → f r = .ok r2 → p r = p2 r2)
    (r0 : Row) (hfind : df.find? p = some r0) :
    ∃ r02, f r0 = .ok r02 ∧ out.find? p2 = some r02 := by
  induction df generalizing out with
  | nil => simp at hfind
  | cons q qs ih =>
    rw [mapRowsM] at hout
    cases hfq : f q with
    | error e => rw [hfq] at hout; exact absurd hout (by simp)
    | ok q2 =>
      rw [hfq] at hout
      cases hrec : mapRowsM f qs with
      | error e => rw [hrec] at hout; exact absurd hout (by simp)
      | ok qs2 =>
        rw [hrec] at hout
        have hout2 : q2 :: qs2 = out := by simpa using hout
        have hpq : p q = p2 q2 := hrel q q2 (List.mem_cons_self q qs) hfq
        by_cases hq : p q = true
        · have : q = r0 := by
            rw [List.find?_cons_of_pos _ hq] at hfind
            simpa using hfind
          subst this
          refine ⟨q2, hfq, ?_⟩
          rw [← hout2, List.find?_cons_of_pos _ (hpq ▸ hq)]
        · rw [List.find?_cons_of_neg _ hq] at hfind
          rcases ih qs2 hrec
              (fun r r2 hr hfr => hrel r r2 (List.mem_cons_of_mem q hr) hfr)
              hfind with ⟨r02, hfr0, hfind2⟩
          refine ⟨r02, hfr0, ?_⟩
          rw [← hout2, List.find?_cons_of_neg _ (by rw [← hpq]; exact hq)]
          exact hfind2

/-! ### Lemmas for the column-coercion statements -/

theorem applyCol_ok (gate : Option Value → Bool)
    (tr : Option Value → Except String Value) (trf : Option Value → Value)
    (c : String) (df : List Row)
    (hgate : ∀ r ∈ df, gate (rowGet r c) = false)
    (htr : ∀ r ∈ df, tr (rowGet r c) = .ok (trf (rowGet r c))) :
    applyCol gate tr c df = .ok (df.map (fun r => rowSet r c (trf (rowGet r c)))) := by
  unfold applyCol
  rw [if_neg]
  · exact mapRowsM_eq_map _ _ df (fun r hr => by rw [htr r hr]; rfl)
  · simp only [List.any_eq_true, not_exists, not_and]
    intro r hr
    rw [hgate r hr]
    simp

theorem applyCols_ok (gate : Option Value → Bool)
    (tr : Option Value → Except String Value) (trf : Option Value → Value)
    (cs : List String) (df : List Row) (hnd : cs.Nodup)
    (h : ∀ r ∈ df, ∀ c ∈ cs, gate (rowGet r c) = false ∧
      tr (rowGet r c) = .ok (trf (rowGet r c))) :
    applyCols gate tr cs df = .ok (df.map (colsFold trf cs)) := by
  induction cs generalizing df with
  | nil =>
    show Except.ok df = Except.ok (df.map (fun r => r))
    simp
  | cons c cs2 ih =>
    have hnd2 : cs2.Nodup := (List.nodup_cons.mp hnd).2
    have hcnot : c ∉ cs2 := (List.nodup_cons.mp hnd).1
    have hstep : applyCol gate tr c df =
        .ok (df.map (fun r => rowSet r c (trf (rowGet r c)))) :=
      applyCol_ok gate tr trf c df
        (fun r hr => (h r hr c (List.mem_cons_self c cs2)).1)
        (fun r hr => (h r hr c (List.mem_cons_self c cs2)).2)
    have hrest : ∀ r2 ∈ df.map (fun r => rowSet r c (trf (rowGet r c))),
        ∀ c2 ∈ cs2, gate (rowGet r2 c2) = false ∧
          tr (rowGet r2 c2) = .ok (trf (rowGet r2 c2)) := by
      intro r2 hr2 c2 hc2
      rcases List.mem_map.mp hr2 with ⟨r, hr, hrq⟩
      have hne : c2 ≠ c := fun hh => hcnot (hh ▸ hc2)
      rw [← hrq, rowGet_rowSet_ne r c c2 _ hne]
      exact h r hr c2 (List.mem_cons_of_mem c hc2)
    unfold applyCols at ih ⊢
    rw [List.foldlM_cons, hstep]
    show applyCols gate tr cs2 _ = _
    unfold applyCols
    rw [ih _ hnd2 hrest, List.map_map]
    rfl

theorem colsFold_rowGet_notMem (trf : Option Value → Value) (cs : List String)
    (r : Row) (c : String) (h : c ∉ cs) :
    rowGet (colsFold trf cs r) c = rowGet r c := by
  induction cs generalizing r with
  | nil => rfl
  | cons c0 cs2 ih =>
    have h0 : c ≠ c0 := fun hh => h (hh ▸ List.mem_cons_self c0 cs2)
    have h2 : c ∉ cs2 := fun hh => h (List.mem_cons_of_mem c0 hh)
    show rowGet (colsFold trf cs2 (rowSet r c0 (trf (rowGet r c0)))) c = rowGet r c
    rw [ih _ h2, rowGet_rowSet_ne _ _ _ _ h0]

theorem colsFold_rowGet_mem (trf : Option Value → Value) (cs : List String)
    (r : Row) (c : String) (hnd : cs.Nodup) (h : c ∈ cs) :
    rowGet (colsFold trf cs r) c = some (trf (rowGet r c)) := by
  induction cs generalizing r with
  | nil => simp at h
  | cons c0 cs2 ih =>
    have hnd2 : cs2.Nodup := (List.nodup_cons.mp hnd).2
    have hc0not : c0 ∉ cs2 := (List.nodup_cons.mp hnd).1
    by_cases hcc : c = c0
    · subst hcc
      show rowGet (colsFold trf cs2 (rowSet r c (trf (rowGet r c)))) c = _
      rw [colsFold_rowGet_notMem trf cs2 _ c hc0not, rowGet_rowSet_self]
    · have hc2 : c ∈ cs2 := by
        rcases List.mem_cons.mp h with h1 | h1
        · exact absurd h1 hcc
        · exact h1
      show rowGet (colsFold trf cs2 (rowSet r c0 (trf (rowGet r c0)))) c = _
      rw [ih _ hnd2 hc2, rowGet_rowSet_ne _ _ _ _ hcc]

/-! ### Preservation of untouched columns through the pipeline -/

theorem applyCol_mem_forward (gate : Option Value → Bool)
    (tr : Option Value → Except String Value) (c : String) (df d2 : List Row)
    (hok : applyCol gate tr c df = .ok d2) :
    ∀ r ∈ df, ∃ r2 ∈ d2, ∀ c2, c2 ≠ c → rowGet r2 c2 = rowGet r c2 := by
  intro r hr
  unfold applyCol at hok
  by_cases hif : df.any (fun r => gate (rowGet r c)) = true
  · rw [if_pos hif] at hok
    exact absurd hok (by simp)
  · rw [if_neg hif] at hok
    rcases mapRowsM_mem_forward _ df d2 hok r hr with ⟨r2, hr2, hfr⟩
    refine ⟨r2, hr2, ?_⟩
    intro c2 hc2
    cases htr : tr (rowGet r c) with
    | error e => rw [htr] at hfr; exact absurd hfr (by simp [Except.map])
    | ok v =>
      rw [htr] at hfr
      have : rowSet r c v = r2 := by simpa [Except.map] using hfr
      rw [← this, rowGet_rowSet_ne _ _ _ _ hc2]

theorem applyCols_mem_forward (gate : Option Value → Bool)
    (tr : Option Value → Except String Value) (cs : List String) (df d2 : List Row)
    (hok : applyCols gate tr cs df = .ok d2) :
    ∀ r ∈ df, ∃ r2 ∈ d2, ∀ c2, c2 ∉ cs → rowGet r2 c2 = rowGet r c2 := by
  induction cs generalizing df with
  | nil =>
    intro r hr
    have h2 : Except.ok df = Except.ok d2 := hok
    have h3 : df = d2 := by simpa using h2
    exact ⟨r, h3 ▸ hr, fun c2 _ => rfl⟩
  | cons c cs2 ih =>
    intro r hr
    unfold applyCols at hok
    rw [List.foldlM_cons] at hok
    cases hstep : applyCol gate tr c df with
    | error e =>
      rw [hstep] at hok
      have hfalse : Except.error (α := List Row) e = Except.ok d2 := hok
      simp at hfalse
    | ok d1 =>
      rw [hstep] at hok
      have hok2 : applyCols gate tr cs2 d1 = .ok d2 := hok
      rcases applyCol_mem_forward gate tr c df d1 hstep r hr with ⟨r1, hr1, hp1⟩
      rcases ih d1 hok2 r1 hr1 with ⟨r2, hr2, hp2⟩
      refine ⟨r2, hr2, ?_⟩
      intro c2 hc2
      have hne : c2 ≠ c := fun hh => hc2 (hh ▸ List.mem_cons_self c cs2)
      have hnm : c2 ∉ cs2 := fun hh => hc2 (List.mem_cons_of_mem c hh)
      rw [hp2 c2 hnm, hp1 c2 hne]

theorem applyCols_numGate_fails (tr : Option Value → Except String Value)
    (cs : List String) (df : List Row)
    (h : ∃ c ∈ cs, ∃ r ∈ df, numGate (rowGet r c) = true) :
    ∀ out, applyCols numGate tr cs df ≠ .ok out := by
  induction cs generalizing df with
  | nil => rcases h with ⟨c, hc, _⟩; simp at hc
  | cons c0 cs2 ih =>
    intro out hok
    unfold applyCols at hok
    rw [List.foldlM_cons] at hok
    cases hstep : applyCol numGate tr c0 df with
    | error e =>
      rw [hstep] at hok
      have hfalse : Except.error (α := List Row) e = Except.ok out := hok
      simp at hfalse
    | ok d1 =>
      rw [hstep] at hok
      have hok2 : applyCols numGate tr cs2 d1 = .ok out := hok
      have hgate0 : df.any (fun r => numGate (rowGet r c0)) = false := by
        unfold applyCol at hstep
        by_cases hif : df.any (fun r => numGate (rowGet r c0)) = true
        · rw [if_pos hif] at hstep; exact absurd hstep (by simp)
        · simpa using hif
      rcases h with ⟨c, hc, r, hr, hgr⟩
      have hcc : c ≠ c0 := by
        intro hh
        subst hh
        have : df.any (fun r => numGate (rowGet r c)) = true :=
          List.any_eq_true.mpr ⟨r, hr, hgr⟩
        rw [this] at hgate0
        exact absurd hgate0 (by simp)
      have hc2 : c ∈ cs2 := by
        rcases List.mem_cons.mp hc with h1 | h1
        · exact absurd h1 hcc
        · exact h1
      rcases applyCol_mem_forward numGate tr c0 df d1 hstep r hr with ⟨r1, hr1, hp1⟩
      exact ih d1 ⟨c, hc2, r1, hr1, by rw [hp1 c hcc]; exact hgr⟩ out hok2

/-! ### Lemmas for the deduplication step -/

theorem dedupAux_cons (seen : List (Option Value)) (r : Row) (rs : List Row) :
    dedupAux seen (r :: rs) =
      if rowGet r "p1" ∈ seen then dedupAux seen rs
      else r :: dedupAux (rowGet r "p1" :: seen) rs := rfl

theorem dedupAux_countP_zero (v : Option Value) (seen : List (Option Value))
    (l : List Row) (hv : v ∈ seen) :
    (dedupAux seen l).countP (fun r => decide (rowGet r "p1" = v)) = 0 := by
  induction l generalizing seen with
  | nil => rfl
  | cons r rs ih =>
    rw [dedupAux_cons]
    by_cases hmem : rowGet r "p1" ∈ seen
    · rw [if_pos hmem]
      exact ih seen hv
    · rw [if_neg hmem]
      have hne : ¬ (decide (rowGet r "p1" = v) = true) := by
        simp only [decide_eq_true_eq]
        intro hh
        exact hmem (by rw [hh]; exact hv)
      rw [List.countP_cons_of_neg (fun r => decide (rowGet r "p1" = v)) _ hne]
      exact ih _ (List.mem_cons_of_mem _ hv)

theorem dedupAux_countP_le_one (v : Option Value) (seen : List (Option Value))
    (l : List Row) :
    (dedupAux seen l).countP (fun r => decide (rowGet r "p1" = v)) ≤ 1 := by
  induction l generalizing seen with
  | nil => simp [dedupAux]
  | cons r rs ih =>
    rw [dedupAux_cons]
    by_cases hmem : rowGet r "p1" ∈ seen
    · rw [if_pos hmem]
      exact ih seen
    · rw [if_neg hmem]
      by_cases hkey : rowGet r "p1" = v
      · rw [List.countP_cons_of_pos (fun r => decide (rowGet r "p1" = v)) _ (by simpa using hkey)]
        rw [dedupAux_countP_zero v _ rs (by rw [← hkey]; exact List.mem_cons_self _ seen)]
      · rw [List.countP_cons_of_neg (fun r => decide (rowGet r "p1" = v)) _ (by simpa using hkey)]
        exact ih _

theorem dedupAux_countP_eq_one (v : Option Value) (seen : List (Option Value))
    (l : List Row) (hv : v ∉ seen) (hex : ∃ r ∈ l, rowGet r "p1" = v) :
    (dedupAux seen l).countP (fun r => decide (rowGet r "p1" = v)) = 1 := by
  induction l generalizing seen with
  | nil => rcases hex with ⟨r, hr, _⟩; simp at hr
  | cons r rs ih =>
    rw [dedupAux_cons]
    by_cases hmem : rowGet r "p1" ∈ seen
    · rw [if_pos hmem]
      rcases hex with ⟨r2, hr2, hkey2⟩
      rcases List.mem_cons.mp hr2 with h1 | h1
      · have hvseen : v ∈ seen := by
          rw [← hkey2, h1]
          exact hmem
        exact absurd hvseen hv
      · exact ih seen hv ⟨r2, h1, hkey2⟩
    · rw [if_neg hmem]
      by_cases hkey : rowGet r "p1" = v
      · rw [List.countP_cons_of_pos (fun r => decide (rowGet r "p1" = v)) _ (by simpa using hkey)]
        rw [dedupAux_countP_zero v _ rs (by rw [← hkey]; exact List.mem_cons_self _ seen)]
      · rw [List.countP_cons_of_neg (fun r => decide (rowGet r "p1" = v)) _ (by simpa using hkey)]
        rcases hex with ⟨r2, hr2, hkey2⟩
        rcases List.mem_cons.mp hr2 with h1 | h1
        · exact absurd (h1 ▸ hkey2) hkey
        · refine ih _ ?_ ⟨r2, h1, hkey2⟩
          intro hvmem
          rcases List.mem_cons.mp hvmem with h2 | h2
          · exact hkey h2.symm
          · exact hv h2

theorem dedupAux_find?_mem (v : Option Value) (seen : List (Option Value))
    (l : List Row) (r0 : Row) (hv : v ∉ seen)
    (hfind : l.find? (fun r => decide (rowGet r "p1" = v)) = some r0) :
    r0 ∈ dedupAux seen l := by
  induction l generalizing seen with
  | nil => simp at hfind
  | cons r rs ih =>
    rw [dedupAux_cons]
    by_cases hkey : (rowGet r "p1" = v)
    · rw [List.find?_cons_of_pos _ (by simpa using hkey)] at hfind
      have hr0 : r = r0 := by simpa using hfind
      have hmem : rowGet r "p1" ∉ seen := by
        rw [hkey]
        exact hv
      rw [if_neg hmem]
      exact hr0 ▸ List.mem_cons_self _ _
    · rw [List.find?_cons_of_neg _ (by simpa using hkey)] at hfind
      by_cases hmem : rowGet r "p1" ∈ seen
      · rw [if_pos hmem]
        exact ih seen hv hfind
      · rw [if_neg hmem]
        refine List.mem_cons_of_mem _ (ih _ ?_ hfind)
        intro hvmem
        rcases List.mem_cons.mp hvmem with h2 | h2
        · exact hkey h2.symm
        · exact hv h2

theorem dedupAux_idem (seen : List (Option Value)) (l : List Row) :
    dedupAux seen (dedupAux seen l) = dedupAux seen l := by
  induction l generalizing seen with
  | nil => rfl
  | cons r rs ih =>
    rw [dedupAux_cons]
    by_cases hmem : rowGet r "p1" ∈ seen
    · rw [if_pos hmem]
      exact ih seen
    · rw [if_neg hmem, dedupAux_cons, if_neg hmem, ih]

theorem countP_le_one_unique {α : Type} (p : α → Bool) (l : List α)
    (h : l.countP p ≤ 1) (a b : α) (ha : a ∈ l) (hb : b ∈ l)
    (hpa : p a = true) (hpb : p b = true) : a = b := by
  rw [List.countP_eq_length_filter] at h
  have ha2 : a ∈ l.filter p := List.mem_filter.mpr ⟨ha, hpa⟩
  have hb2 : b ∈ l.filter p := List.mem_filter.mpr ⟨hb, hpb⟩
  cases hf : l.filter p with
  | nil => rw [hf] at ha2; simp at ha2
  | cons x rest =>
    cases rest with
    | nil =>
      rw [hf] at ha2 hb2
      simp only [List.mem_singleton] at ha2 hb2
      rw [ha2, hb2]
    | cons y rest2 =>
      rw [hf] at h
      simp at h

/-! ### Readiness of raw rows and the structure of parse_data -/

/-- Whether an optional cell is raw text (present, and a string or a missing
value). -/
def rawAtCell : Option Value → Bool
  | some v => v.isRaw
  | none => false

/-- Whether the cell of a column is raw text. -/
def rowRawAt (r : Row) (c : String) : Bool :=
  rawAtCell (rowGet r c)

/-- Whether an optional date cell will satisfy the fixed `%Y-%m-%d` format
of the date coercion. -/
def dateOKCell : Option Value → Bool
  | some (Value.str s) => (parseDate s.data).isSome
  | some Value.missing => true
  | _ => false

/-- Whether the date cell of a row will satisfy the fixed `%Y-%m-%d`
format. -/
def rowDateOK (r : Row) : Bool :=
  dateOKCell (rowGet r "p2a")

/-- A raw record on which `parse_data` makes progress: every pipeline column
holds raw text and the date cell matches the format. -/
def rowReady (r : Row) : Bool :=
  pipelineCols.all (rowRawAt r) && rowDateOK r

theorem catCols_nodup : catCols.Nodup := by decide

theorem numericCols_nodup : numericCols.Nodup := by decide

theorem catCols_ne_p2a : ∀ c ∈ catCols, c ≠ "p2a" := by
  intro c hc
  fin_cases hc <;> decide

theorem numericCols_ne_p2a : ∀ c ∈ numericCols, c ≠ "p2a" := by
  intro c hc
  fin_cases hc <;> decide

theorem numericCols_not_cat : ∀ c ∈ numericCols, c ∉ catCols := by
  intro c hc
  fin_cases hc <;> decide

theorem p1_not_p2a : ("p1" : String) ≠ "p2a" := by decide

theorem p1_not_cat : ("p1" : String) ∉ catCols := by decide

theorem p1_not_numeric : ("p1" : String) ∉ numericCols := by decide

theorem rowReady_rawAt (r : Row) (h : rowReady r = true) :
    ∀ c ∈ pipelineCols, ∃ v, rowGet r c = some v ∧ v.isRaw = true := by
  intro c hc
  unfold rowReady at h
  rw [Bool.and_eq_true] at h
  have hcr : rowRawAt r c = true := List.all_eq_true.mp h.1 c hc
  unfold rowRawAt at hcr
  cases hg : rowGet r c with
  | none => rw [hg] at hcr; simp [rawAtCell] at hcr
  | some v =>
    rw [hg] at hcr
    exact ⟨v, rfl, by simpa [rawAtCell] using hcr⟩

theorem rowReady_dateTr (r : Row) (h : rowReady r = true) :
    dateTr (rowGet r "p2a") = .ok (cellDate (rowGet r "p2a")) := by
  unfold rowReady at h
  rw [Bool.and_eq_true] at h
  have hdok := h.2
  unfold rowDateOK at hdok
  cases hg : rowGet r "p2a" with
  | none => rw [hg] at hdok; simp [dateOKCell] at hdok
  | some v =>
    rw [hg] at hdok
    cases v with
    | str s =>
      cases hp : parseDate s.data with
      | none => simp [dateOKCell, hp] at hdok
      | some d => simp [dateTr, cellDate, hp]
    | missing => simp [dateTr, cellDate]
    | num q => simp [dateOKCell] at hdok
    | date y m dd => simp [dateOKCell] at hdok

theorem isRaw_numGate (v : Value) (h : v.isRaw = true) :
    numGate (some v) = false := by
  cases v with
  | str s => rfl
  | missing => rfl
  | num q => simp [Value.isRaw] at h
  | date y m d => simp [Value.isRaw] at h

/-- A success of the data path of `parse_data` factors into the three
coercion stages followed by the deduplication. -/
theorem parse_dataRes_ok_elim (df : List Row) (out : List Row)
    (h : parse_dataRes df = .ok out) :
    ∃ d1 d2 d3, applyCol falseGate dateTr "p2a" df = .ok d1 ∧
      applyCols falseGate catTr catCols d1 = .ok d2 ∧
      applyCols numGate numTr numericCols d2 = .ok d3 ∧
      out = drop_duplicatesP1 d3 := by
  rw [parse_dataRes] at h
  cases h1 : applyCol falseGate dateTr "p2a" df with
  | error e => rw [h1] at h; simp [Except.bind] at h
  | ok d1 =>
    rw [h1] at h
    simp only [Except.bind] at h
    cases h2 : applyCols falseGate catTr catCols d1 with
    | error e => rw [h2] at h; simp [Except.bind] at h
    | ok d2 =>
      rw [h2] at h
      simp only [Except.bind] at h
      cases h3 : applyCols numGate numTr numericCols d2 with
      | error e => rw [h3] at h; simp [Except.map] at h
      | ok d3 =>
        rw [h3] at h
        simp only [Except.map] at h
        exact ⟨d1, d2, d3, rfl, h2, h3, by simpa using h.symm⟩

/-- The data component of `parse_data` is its data path. -/
theorem parse_data_fst (df : List Row) (b : Bool) :
    (parse_data df b).1 = parse_dataRes df := rfl

/-- On ready raw records the data path succeeds and equals the
deduplication of the rowwise coercion image. -/
theorem parse_dataRes_ready (df : List Row)
    (h : ∀ r ∈ df, rowReady r = true) :
    parse_dataRes df = .ok (drop_duplicatesP1 (df.map normRow)) := by
  have hs1 : applyCol falseGate dateTr "p2a" df =
      .ok (df.map (fun r => rowSet r "p2a" (cellDate (rowGet r "p2a")))) :=
    applyCol_ok falseGate dateTr cellDate "p2a" df (fun r _ => rfl)
      (fun r hr => rowReady_dateTr r (h r hr))
  have hget1 : ∀ r ∈ df, ∀ c, c ≠ "p2a" →
      rowGet (rowSet r "p2a" (cellDate (rowGet r "p2a"))) c = rowGet r c :=
    fun r _ c hc => rowGet_rowSet_ne r "p2a" c _ hc
  have hcat : ∀ r1 ∈ df.map (fun r => rowSet r "p2a" (cellDate (rowGet r "p2a"))),
      ∀ c ∈ catCols, falseGate (rowGet r1 c) = false ∧
        catTr (rowGet r1 c) = .ok (catTotal (rowGet r1 c)) := by
    intro r1 hr1 c hc
    rcases List.mem_map.mp hr1 with ⟨r, hr, hrq⟩
    have hc2 : c ≠ "p2a" := catCols_ne_p2a c hc
    have hmem : c ∈ pipelineCols := by
      unfold pipelineCols
      exact List.mem_cons_of_mem _ (List.mem_append_left _ hc)
    rcases rowReady_rawAt r (h r hr) c hmem with ⟨v, hv, _⟩
    refine ⟨rfl, ?_⟩
    rw [← hrq, hget1 r hr c hc2, hv]
    rfl
  have hs2 := applyCols_ok falseGate catTr catTotal catCols _ catCols_nodup hcat
  have hnum : ∀ r2 ∈ (df.map (fun r => rowSet r "p2a" (cellDate (rowGet r "p2a")))).map
        (colsFold catTotal catCols),
      ∀ c ∈ numericCols, numGate (rowGet r2 c) = false ∧
        numTr (rowGet r2 c) = .ok (numTotal (rowGet r2 c)) := by
    intro r2 hr2 c hc
    rcases List.mem_map.mp hr2 with ⟨r1, hr1, hr1q⟩
    rcases List.mem_map.mp hr1 with ⟨r, hr, hrq⟩
    have hc2 : c ≠ "p2a" := numericCols_ne_p2a c hc
    have hc3 : c ∉ catCols := numericCols_not_cat c hc
    have hmem : c ∈ pipelineCols := by
      unfold pipelineCols
      exact List.mem_cons_of_mem _ (List.mem_append_right _ hc)
    rcases rowReady_rawAt r (h r hr) c hmem with ⟨v, hv, hraw⟩
    have hgg : rowGet r2 c = some v := by
      rw [← hr1q, colsFold_rowGet_notMem catTotal catCols r1 c hc3, ← hrq,
        hget1 r hr c hc2, hv]
    exact ⟨by rw [hgg]; exact isRaw_numGate v hraw, by rw [hgg]; rfl⟩
  have hs3 := applyCols_ok numGate numTr numTotal numericCols _ numericCols_nodup hnum
  rw [parse_dataRes, hs1]
  simp only [Except.bind]
  rw [hs2]
  simp only [Except.bind]
  rw [hs3]
  simp only [Except.map]
  rw [List.map_map, List.map_map]
  have hfun : df.map ((colsFold numTotal numericCols ∘ colsFold catTotal catCols) ∘
      fun r => rowSet r "p2a" (cellDate (rowGet r "p2a"))) = df.map normRow :=
    List.map_congr_left (fun r _ => by simp only [Function.comp_apply]; rfl)
  rw [hfun]

theorem normRow_rowGet_p1 (r : Row) : rowGet (normRow r) "p1" = rowGet r "p1" := by
  unfold normRow
  rw [colsFold_rowGet_notMem _ _ _ _ p1_not_numeric,
    colsFold_rowGet_notMem _ _ _ _ p1_not_cat,
    rowGet_rowSet_ne _ _ _ _ p1_not_p2a]

theorem normRow_rowGet_p2a (r : Row) :
    rowGet (normRow r) "p2a" = some (cellDate (rowGet r "p2a")) := by
  unfold normRow
  have h1 : ("p2a" : String) ∉ numericCols := by decide
  have h2 : ("p2a" : String) ∉ catCols := by decide
  rw [colsFold_rowGet_notMem _ _ _ _ h1, colsFold_rowGet_notMem _ _ _ _ h2,
    rowGet_rowSet_self]

theorem normRow_rowGet_numeric (r : Row) (c : String) (hc : c ∈ numericCols) :
    rowGet (normRow r) c = some (numTotal (rowGet r c)) := by
  unfold normRow
  rw [colsFold_rowGet_mem numTotal numericCols _ c numericCols_nodup hc,
    colsFold_rowGet_notMem _ _ _ _ (numericCols_not_cat c hc),
    rowGet_rowSet_ne _ _ _ _ (numericCols_ne_p2a c hc)]

/-! ### Lemmas for load_data -/

theorem loadExtract_unknown (e : Extract)
    (hnone : regions.lookup (e.1.take 2) = none) : loadExtract e = [] := by
  rw [loadExtract, hnone]

theorem loadExtract_region (e : Extract) (reg : String)
    (hreg : regions.lookup (e.1.take 2) = some reg) :
    ∀ r ∈ loadExtract e, rowGet r "region" = some (Value.str reg) := by
  intro r hr
  rw [loadExtract, hreg] at hr
  rcases List.mem_map.mp hr with ⟨r0, _, hq⟩
  rw [← hq, rowGet_rowSet_self]

theorem mem_load_data (archive : List (List Extract)) (r : Row)
    (hr : r ∈ load_data archive) :
    ∃ inner ∈ archive, ∃ e ∈ inner, r ∈ loadExtract e := by
  unfold load_data at hr
  rcases List.mem_flatten.mp hr with ⟨rows1, h1, hmem1⟩
  rcases List.mem_map.mp h1 with ⟨inner, hinner, hq⟩
  rw [← hq] at hmem1
  rcases List.mem_flatten.mp hmem1 with ⟨rows2, h2, hmem2⟩
  rcases List.mem_map.mp h2 with ⟨e, he, hq2⟩
  rw [← hq2] at hmem2
  exact ⟨inner, hinner, e, he, hmem2⟩

theorem load_data_region_some (archive : List (List Extract)) (r : Row)
    (hr : r ∈ load_data archive) :
    ∃ reg, rowGet r "region" = some (Value.str reg) := by
  rcases mem_load_data archive r hr with ⟨inner, _, e, _, hre⟩
  cases hlk : regions.lookup (e.1.take 2) with
  | none => rw [loadExtract_unknown e hlk] at hre; simp at hre
  | some reg => exact ⟨reg, loadExtract_region e reg hlk r hre⟩

theorem load_data_skip (pre post : List (List Extract))
    (inner1 inner2 : List Extract) (e : Extract)
    (hnone : regions.lookup (e.1.take 2) = none) :
    load_data (pre ++ (inner1 ++ e :: inner2) :: post) =
      load_data (pre ++ (inner1 ++ inner2) :: post) := by
  have he : loadExtract e = [] := loadExtract_unknown e hnone
  simp [load_data, List.map_append, List.flatten_append, he]

theorem load_data_infix (pre post : List (List Extract))
    (inner1 inner2 : List Extract) (e : Extract) :
    List.IsInfix (loadExtract e) (load_data (pre ++ (inner1 ++ e :: inner2) :: post)) := by
  refine ⟨((pre.map (fun inner => (inner.map loadExtract).flatten)).flatten)
      ++ (inner1.map loadExtract).flatten,
    (inner2.map loadExtract).flatten
      ++ ((post.map (fun inner => (inner.map loadExtract).flatten)).flatten), ?_⟩
  simp [load_data, List.map_append, List.flatten_append]

/-! ### Heap model of the copy discipline of parse_data -/

/-- A heap of allocated dataframes; a frame reference is an index. -/
abbrev Heap := List (List Row)

/-- The body of `parse_data` with the pandas object semantics made explicit:
`df = df.copy()` allocates a fresh frame and rebinds the local name to it,
each column assignment mutates that fresh frame in place, and
`drop_duplicates` returns another fresh frame whose reference is returned.
The caller passes the reference `i0` of its own frame. -/
def parse_data_ref (h : Heap) (i0 : ℕ) : Except String (Heap × ℕ) :=
  let i := h.length
  let h1 := h ++ [h.getD i0 []]
  (applyCol falseGate dateTr "p2a" (h1.getD i [])).bind (fun d1 =>
    let h2 := h1.set i d1
    (applyCols falseGate catTr catCols (h2.getD i [])).bind (fun d2 =>
      let h3 := h2.set i d2
      (applyCols numGate numTr numericCols (h3.getD i [])).bind (fun d3 =>
        let h4 := h3.set i d3
        .ok (h4 ++ [drop_duplicatesP1 (h4.getD i [])], h4.length))))

theorem getD_append_self (h : Heap) (x : List Row) :
    (h ++ [x]).getD h.length [] = x := by
  rw [List.getD_eq_getElem?_getD, List.getElem?_append_right (le_refl _)]
  simp

theorem parse_data_ref_ok_elim (h : Heap) (i0 : ℕ) (hp : Heap) (j : ℕ)
    (hok : parse_data_ref h i0 = .ok (hp, j)) :
    ∃ d1 d2 d3,
      applyCol falseGate dateTr "p2a" (h.getD i0 []) = .ok d1 ∧
      applyCols falseGate catTr catCols d1 = .ok d2 ∧
      applyCols numGate numTr numericCols d2 = .ok d3 ∧
      hp = ((h ++ [h.getD i0 []]).set h.length d3) ++ [drop_duplicatesP1 d3] ∧
      j = h.length + 1 := by
  have hx : (h ++ [h.getD i0 []]).getD h.length [] = h.getD i0 [] :=
    getD_append_self h _
  have hlen1 : (h ++ [h.getD i0 []]).length = h.length + 1 := by simp
  simp only [parse_data_ref] at hok
  rw [hx] at hok
  cases h1 : applyCol falseGate dateTr "p2a" (h.getD i0 []) with
  | error e => rw [h1] at hok; simp [Except.bind] at hok
  | ok d1 =>
    rw [h1] at hok
    simp only [Except.bind] at hok
    have hset1 : ((h ++ [h.getD i0 []]).set h.length d1).getD h.length [] = d1 := by
      rw [List.getD_eq_getElem?_getD, List.getElem?_set_self (by omega)]
      rfl
    rw [hset1] at hok
    cases h2 : applyCols falseGate catTr catCols d1 with
    | error e => rw [h2] at hok; simp [Except.bind] at hok
    | ok d2 =>
      rw [h2] at hok
      simp only [Except.bind] at hok
      have hset2 : (((h ++ [h.getD i0 []]).set h.length d1).set h.length d2).getD
          h.length [] = d2 := by
        rw [List.getD_eq_getElem?_getD, List.getElem?_set_self (by simp)]
        rfl
      rw [hset2] at hok
      cases h3 : applyCols numGate numTr numericCols d2 with
      | error e => rw [h3] at hok; simp [Except.bind] at hok
      | ok d3 =>
        rw [h3] at hok
        simp only [Except.bind] at hok
        have hset3 : ((((h ++ [h.getD i0 []]).set h.length d1).set h.length d2).set
            h.length d3).getD h.length [] = d3 := by
          rw [List.getD_eq_getElem?_getD, List.getElem?_set_self (by simp)]
          rfl
        rw [hset3] at hok
        rw [List.set_set, List.set_set] at hok
        have hpair := hok
        simp only [Except.ok.injEq, Prod.mk.injEq] at hpair
        refine ⟨d1, d2, d3, rfl, h2, h3, hpair.1.symm, ?_⟩
        rw [← hpair.2]
        simp

theorem parse_data_ref_frames (h : Heap) (i0 : ℕ) (hp : Heap) (j : ℕ)
    (hok : parse_data_ref h i0 = .ok (hp, j)) :
    (∀ k, k < h.length → hp[k]? = h[k]?) ∧
      parse_dataRes (h.getD i0 []) = .ok (hp.getD j []) := by
  rcases parse_data_ref_ok_elim h i0 hp j hok with ⟨d1, d2, d3, h1, h2, h3, hhp, hj⟩
  constructor
  · intro k hk
    rw [hhp]
    rw [List.getElem?_append, if_pos (by simp; omega)]
    rw [List.getElem?_set_ne (by omega)]
    rw [List.getElem?_append, if_pos (by omega)]
  · have hres : parse_dataRes (h.getD i0 []) = .ok (drop_duplicatesP1 d3) := by
      rw [parse_dataRes, h1]
      simp only [Except.bind]
      rw [h2]
      simp only [Except.bind]
      rw [h3]
      simp only [Except.map]
    rw [hres, hhp, hj]
    have hlen : ((h ++ [h.getD i0 []]).set h.length d3).length = h.length + 1 := by
      simp
    have : (((h ++ [h.getD i0 []]).set h.length d3) ++
        [drop_duplicatesP1 d3]).getD (h.length + 1) [] = drop_duplicatesP1 d3 := by
      have := getD_append_self ((h ++ [h.getD i0 []]).set h.length d3)
        (drop_duplicatesP1 d3)
      rw [hlen] at this
      exact this
    rw [this]

/-! ### Sample raw records for concrete checks -/

/-- A raw record holding the accident id, a date cell, one text cell for
every categorical column and one shared text cell for every numeric
column. -/
def mkSampleRow (id dateStr numCell : String) : Row :=
  [("p1", Value.str id), ("p2a", Value.str dateStr)]
    ++ catCols.map (fun c => (c, Value.str "x"))
    ++ numericCols.map (fun c => (c, Value.str numCell))

theorem drop_duplicatesP1_singleton (r : Row) : drop_duplicatesP1 [r] = [r] := by
  rw [drop_duplicatesP1, dedupAux_cons]
  rw [if_neg (by simp)]
  rfl

/-! ### The claims -/

/-- C1: for every record collection accepted by normalize and every accident
id, the returned collection holds at most one record whose `p1` equals that
id, and exactly one when the id occurs in the input. -/
theorem claim1_dedup_unique (df : List Row) (b : Bool) (out : List Row)
    (hout : (parse_data df b).1 = .ok out) (v : Option Value) :
    out.countP (fun r => decide (rowGet r "p1" = v)) ≤ 1 ∧
      ((∃ r ∈ df, rowGet r "p1" = v) →
        out.countP (fun r => decide (rowGet r "p1" = v)) = 1) := by
  rw [parse_data_fst] at hout
  rcases parse_dataRes_ok_elim df out hout with ⟨d1, d2, d3, h1, h2, h3, hdd⟩
  constructor
  · rw [hdd]
    exact dedupAux_countP_le_one v [] d3
  · rintro ⟨r, hr, hkey⟩
    rcases applyCol_mem_forward _ _ _ df d1 h1 r hr with ⟨r1, hr1, hp1⟩
    rcases applyCols_mem_forward _ _ _ d1 d2 h2 r1 hr1 with ⟨r2, hr2, hp2⟩
    rcases applyCols_mem_forward _ _ _ d2 d3 h3 r2 hr2 with ⟨r3, hr3, hp3⟩
    have hkey3 : rowGet r3 "p1" = v := by
      rw [hp3 "p1" p1_not_numeric, hp2 "p1" p1_not_cat, hp1 "p1" p1_not_p2a, hkey]
    rw [hdd]
    exact dedupAux_countP_eq_one v [] d3 (by simp) ⟨r3, hr3, hkey3⟩

/-- Witness for C1 at a concrete two-record collection sharing one id. -/
theorem claim1_dedup_unique_witness :
    (parse_data [mkSampleRow "7" "2022-03-15" "1", mkSampleRow "7" "2022-03-15" "2"]
        false).1 = .ok [normRow (mkSampleRow "7" "2022-03-15" "1")] ∧
    [normRow (mkSampleRow "7" "2022-03-15" "1")].countP
      (fun r => decide (rowGet r "p1" = some (Value.str "7"))) = 1 :=
  ⟨rfl,
   (claim1_dedup_unique
      [mkSampleRow "7" "2022-03-15" "1", mkSampleRow "7" "2022-03-15" "2"] false
      [normRow (mkSampleRow "7" "2022-03-15" "1")] rfl (some (Value.str "7"))).2
    ⟨mkSampleRow "7" "2022-03-15" "1", by decide, by decide⟩⟩

/-- C2 as stated is false: on this one-record collection the first
normalize succeeds, but normalize applied to its own output raises (the
numeric columns hold parsed numbers, on which the `.str` accessor is
unavailable) instead of succeeding with the same row count. -/
theorem claim2_counterexample :
    isOkB (parse_data [mkSampleRow "1" "2022-03-15" "1"] false).1 = true ∧
    isOkB ((parse_data [mkSampleRow "1" "2022-03-15" "1"] false).1.bind
      (fun out => (parse_data out false).1)) = false := by
  exact ⟨by decide, by decide⟩

/-- C2 amended: the output of a successful normalize is already
deduplicated — a second deduplication leaves it unchanged, so the row count
is stable — but running the whole normalize again on an output holding at
least one parsed numeric value raises instead of succeeding. -/
theorem claim2_dedup_stable_second_run_raises (df : List Row) (b b2 : Bool)
    (out : List Row) (hout : (parse_data df b).1 = .ok out) :
    drop_duplicatesP1 out = out ∧
      ((∃ r ∈ out, ∃ c ∈ numericCols, ∃ q, rowGet r c = some (Value.num q)) →
        isOkB (parse_data out b2).1 = false) := by
  rw [parse_data_fst] at hout
  rcases parse_dataRes_ok_elim df out hout with ⟨d1, d2, d3, h1, h2, h3, hdd⟩
  constructor
  · rw [hdd]
    exact dedupAux_idem [] d3
  · rintro ⟨r, hr, c, hc, q, hq⟩
    rw [parse_data_fst, parse_dataRes]
    cases g1 : applyCol falseGate dateTr "p2a" out with
    | error e => rfl
    | ok e1 =>
      simp only [Except.bind]
      cases g2 : applyCols falseGate catTr catCols e1 with
      | error e => rfl
      | ok e2 =>
        simp only [Except.bind]
        rcases applyCol_mem_forward _ _ _ out e1 g1 r hr with ⟨r1, hr1, hp1⟩
        rcases applyCols_mem_forward _ _ _ e1 e2 g2 r1 hr1 with ⟨r2, hr2, hp2⟩
        have hgate : numGate (rowGet r2 c) = true := by
          rw [hp2 c (numericCols_not_cat c hc), hp1 c (numericCols_ne_p2a c hc), hq]
          rfl
        have hfail := applyCols_numGate_fails numTr numericCols e2 ⟨c, hc, r2, hr2, hgate⟩
        cases g3 : applyCols numGate numTr numericCols e2 with
        | ok o => exact absurd g3 (hfail o)
        | error e => rfl

/-- Witness for the amended C2 at a concrete normalize output. -/
theorem claim2_dedup_stable_witness :
    drop_duplicatesP1 [normRow (mkSampleRow "1" "2022-03-15" "1")] =
      [normRow (mkSampleRow "1" "2022-03-15" "1")] ∧
    isOkB (parse_data [normRow (mkSampleRow "1" "2022-03-15" "1")] false).1 = false :=
  ⟨(claim2_dedup_stable_second_run_raises [mkSampleRow "1" "2022-03-15" "1"] false false
      [normRow (mkSampleRow "1" "2022-03-15" "1")] rfl).1,
   (claim2_dedup_stable_second_run_raises [mkSampleRow "1" "2022-03-15" "1"] false false
      [normRow (mkSampleRow "1" "2022-03-15" "1")] rfl).2
    ⟨normRow (mkSampleRow "1" "2022-03-15" "1"), by decide, "a", by decide, 1, by decide⟩⟩

/-- C3: an extract whose 2-character file-name code is not in the region
table contributes nothing to the loaded collection (and causes no error:
the load of the archive without it is the same value), while a recognized
extract contributes its parsed rows contiguously. -/
theorem claim3_unknown_code_skipped (pre post : List (List Extract))
    (inner1 inner2 : List Extract) (e : Extract) :
    (regions.lookup (e.1.take 2) = none →
      load_data (pre ++ (inner1 ++ e :: inner2) :: post) =
        load_data (pre ++ (inner1 ++ inner2) :: post)) ∧
    (∀ reg, regions.lookup (e.1.take 2) = some reg →
      List.IsInfix (loadExtract e) (load_data (pre ++ (inner1 ++ e :: inner2) :: post))) :=
  ⟨fun hnone => load_data_skip pre post inner1 inner2 e hnone,
   fun _ _ => load_data_infix pre post inner1 inner2 e⟩

/-- Witness for C3: an archive with an unrecognized extract `99xx` and a
recognized extract `00aa`. -/
theorem claim3_unknown_code_skipped_witness :
    load_data [[("99xx", [["9"]])], [("00aa", [["7"]])]] =
      load_data [[], [("00aa", [["7"]])]] ∧
    List.IsInfix (loadExtract ("00aa", [["7"]]))
      (load_data [[("99xx", [["9"]])], [("00aa", [["7"]])]]) :=
  ⟨(claim3_unknown_code_skipped [] [[("00aa", [["7"]])]] [] [] ("99xx", [["9"]])).1 rfl,
   (claim3_unknown_code_skipped [[("99xx", [["9"]])]] [] [] [] ("00aa", [["7"]])).2
     "PHA" rfl⟩

/-- C4: the date column is parsed with the fixed `%Y-%m-%d` format: the
cell `2022-03-15` coerces to the calendar date 2022-03-15 (also through the
whole rowwise coercion), and a collection holding the malformed cell
`15/03/2022` makes the whole call fail. -/
theorem claim4_fixed_date_format (df : List Row) (b : Bool) (r : Row) :
    dateTr (some (Value.str "2022-03-15")) = .ok (Value.date 2022 3 15) ∧
    cellDate (some (Value.str "2022-03-15")) = Value.date 2022 3 15 ∧
    rowGet (normRow r) "p2a" = some (cellDate (rowGet r "p2a")) ∧
    (r ∈ df → rowGet r "p2a" = some (Value.str "15/03/2022") →
      isOkB (parse_data df b).1 = false) := by
  refine ⟨rfl, rfl, normRow_rowGet_p2a r, ?_⟩
  intro hr hget
  rw [parse_data_fst, parse_dataRes]
  cases g1 : applyCol falseGate dateTr "p2a" df with
  | error e => rfl
  | ok d1 =>
    exfalso
    unfold applyCol at g1
    by_cases hif : df.any (fun r2 => falseGate (rowGet r2 "p2a")) = true
    · rw [if_pos hif] at g1
      exact absurd g1 (by simp)
    · rw [if_neg hif] at g1
      refine mapRowsM_not_ok _ df r hr ?_ d1 g1
      intro r2 hfr
      rw [hget] at hfr
      have herr : isOkB (dateTr (some (Value.str "15/03/2022"))) = false := by decide
      cases hdt : dateTr (some (Value.str "15/03/2022")) with
      | ok v => rw [hdt] at herr; simp [isOkB] at herr
      | error e =>
        rw [hdt] at hfr
        exact absurd hfr (by simp [Except.map])

/-- Witness for C4: a collection holding the malformed date cell fails. -/
theorem claim4_fixed_date_format_witness :
    isOkB (parse_data [mkSampleRow "1" "15/03/2022" "1"] false).1 = false :=
  (claim4_fixed_date_format [mkSampleRow "1" "15/03/2022" "1"] false
    (mkSampleRow "1" "15/03/2022" "1")).2.2.2 (by decide) (by decide)

/-- C5: a numeric-column cell whose text still fails to parse after the
comma replacement becomes a missing value — cellwise, through the rowwise
coercion — and the call on a ready raw collection does not raise. -/
theorem claim5_unparseable_numeric_missing (df : List Row) (b : Bool)
    (r : Row) (c : String) :
    toNumericCell (strReplaceCell (Value.str "N/A")) = Value.missing ∧
    (c ∈ numericCols → rowGet r c = some (Value.str "N/A") →
      rowGet (normRow r) c = some Value.missing) ∧
    ((∀ r2 ∈ df, rowReady r2 = true) → isOkB (parse_data df b).1 = true) := by
  refine ⟨rfl, ?_, ?_⟩
  · intro hc hget
    rw [normRow_rowGet_numeric r c hc, hget]
    rfl
  · intro hready
    rw [parse_data_fst, parse_dataRes_ready df hready]
    rfl

/-- Witness for C5 at a record whose numeric cells hold `N/A`. -/
theorem claim5_unparseable_numeric_missing_witness :
    rowGet (normRow (mkSampleRow "1" "2022-03-15" "N/A")) "a" = some Value.missing ∧
    isOkB (parse_data [mkSampleRow "1" "2022-03-15" "N/A"] false).1 = true :=
  ⟨(claim5_unparseable_numeric_missing [] false
      (mkSampleRow "1" "2022-03-15" "N/A") "a").2.1 (by decide) (by decide),
   (claim5_unparseable_numeric_missing [mkSampleRow "1" "2022-03-15" "N/A"] false
      [] "a").2.2 (by decide)⟩

/-- The coercion of the comma-decimal cell `12,5` is the rational 25/2. -/
theorem toNumericCell_comma_half :
    toNumericCell (strReplaceCell (Value.str "12,5")) = Value.num ((25 : ℚ) / 2) := by
  show Value.num (natVal ['1', '2'] + fracVal ['5']) = Value.num ((25 : ℚ) / 2)
  have h1 : natVal ['1', '2'] = ((12 : ℕ) : ℚ) :=
    congrArg (fun n : ℕ => (n : ℚ))
      (by decide : List.foldl (fun a ch => 10 * a + (ch.toNat - 48)) 0 ['1', '2'] = 12)
  have hn5 : (Char.toNat '5' - 48 : ℕ) = 5 := by decide
  have h2 : fracVal ['5'] = ((0 : ℚ) + ((5 : ℕ) : ℚ)) / 10 := by
    show ((0 : ℚ) + ((Char.toNat '5' - 48 : ℕ) : ℚ)) / 10 = ((0 : ℚ) + ((5 : ℕ) : ℚ)) / 10
    rw [hn5]
  rw [h1, h2]
  norm_num

/-- C6: a comma-decimal numeral in a numeric column coerces to the
corresponding decimal value: `12,5` becomes 12.5 — cellwise, through the
rowwise coercion, and through the whole of normalize on a one-record
collection. -/
theorem claim6_comma_decimal (r : Row) (c : String) (b : Bool) :
    toNumericCell (strReplaceCell (Value.str "12,5")) = Value.num ((25 : ℚ) / 2) ∧
    (c ∈ numericCols → rowGet r c = some (Value.str "12,5") →
      rowGet (normRow r) c = some (Value.num ((25 : ℚ) / 2))) ∧
    (rowReady r = true → (parse_data [r] b).1 = .ok [normRow r]) := by
  refine ⟨toNumericCell_comma_half, ?_, ?_⟩
  · intro hc hget
    rw [normRow_rowGet_numeric r c hc, hget]
    show some (toNumericCell (strReplaceCell (Value.str "12,5"))) =
      some (Value.num ((25 : ℚ) / 2))
    rw [toNumericCell_comma_half]
  · intro hready
    have hall : ∀ r2 ∈ [r], rowReady r2 = true := by
      intro r2 hr2
      rw [List.mem_singleton] at hr2
      rw [hr2]
      exact hready
    rw [parse_data_fst, parse_dataRes_ready [r] hall]
    rw [List.map_singleton, drop_duplicatesP1_singleton]

/-- Witness for C6 at a record whose numeric cells hold `12,5`. -/
theorem claim6_comma_decimal_witness :
    rowGet (normRow (mkSampleRow "1" "2022-03-15" "12,5")) "a" =
      some (Value.num ((25 : ℚ) / 2)) ∧
    (parse_data [mkSampleRow "1" "2022-03-15" "12,5"] false).1 =
      .ok [normRow (mkSampleRow "1" "2022-03-15" "12,5")] :=
  ⟨(claim6_comma_decimal (mkSampleRow "1" "2022-03-15" "12,5") "a" false).2.1
      (by decide) (by decide),
   (claim6_comma_decimal (mkSampleRow "1" "2022-03-15" "12,5") "a" false).2.2
      (by decide)⟩

/-- C7: every record emitted for an extract with a recognized 2-character
code carries the region resolved from that code, and every record of the
loaded collection carries some region tag. -/
theorem claim7_region_tag (archive : List (List Extract)) (inner : List Extract)
    (e : Extract) (reg : String) (r : Row)
    (hinner : inner ∈ archive) (he : e ∈ inner)
    (hreg : regions.lookup (e.1.take 2) = some reg) :
    (∀ r2 ∈ loadExtract e, rowGet r2 "region" = some (Value.str reg)) ∧
    (r ∈ load_data archive → ∃ reg2, rowGet r "region" = some (Value.str reg2)) :=
  ⟨loadExtract_region e reg hreg, load_data_region_some archive r⟩

/-- Witness for C7: two extracts prefixed `00`, whose records both carry
region `PHA`. -/
theorem claim7_region_tag_witness :
    rowGet (rowSet (rowOfCells ["7"]) "region" (Value.str "PHA")) "region" =
      some (Value.str "PHA") ∧
    rowGet (rowSet (rowOfCells ["8"]) "region" (Value.str "PHA")) "region" =
      some (Value.str "PHA") :=
  ⟨(claim7_region_tag [[("00a", [["7"]]), ("00b", [["8"]])]]
      [("00a", [["7"]]), ("00b", [["8"]])] ("00a", [["7"]]) "PHA"
      (rowSet (rowOfCells ["7"]) "region" (Value.str "PHA"))
      (by decide) (by decide) rfl).1
      (rowSet (rowOfCells ["7"]) "region" (Value.str "PHA")) (by decide),
   (claim7_region_tag [[("00a", [["7"]]), ("00b", [["8"]])]]
      [("00a", [["7"]]), ("00b", [["8"]])] ("00b", [["8"]]) "PHA"
      (rowSet (rowOfCells ["8"]) "region" (Value.str "PHA"))
      (by decide) (by decide) rfl).1
      (rowSet (rowOfCells ["8"]) "region" (Value.str "PHA")) (by decide)⟩

/-- C8: the collection returned by normalize does not depend on the verbose
flag, which only controls the diagnostic size reports. -/
theorem claim8_verbose_no_effect (df : List Row) (b1 b2 : Bool) :
    (parse_data df b1).1 = (parse_data df b2).1 := rfl

/-- C9: normalize does not mutate the caller's frame: in the heap model of
the body, every frame allocated before the call — in particular the
caller's frame `i0` — is unchanged by a successful call, and the returned
reference holds the result of the data path applied to the caller's
frame. -/
theorem claim9_no_mutation (h : Heap) (i0 : ℕ) (hp : Heap) (j : ℕ)
    (hok : parse_data_ref h i0 = .ok (hp, j)) :
    (∀ k, k < h.length → hp[k]? = h[k]?) ∧
      parse_dataRes (h.getD i0 []) = .ok (hp.getD j []) :=
  parse_data_ref_frames h i0 hp j hok

/-- Witness for C9 at a one-frame heap. -/
theorem claim9_no_mutation_witness :
    [[mkSampleRow "1" "2022-03-15" "1"],
     [normRow (mkSampleRow "1" "2022-03-15" "1")],
     [normRow (mkSampleRow "1" "2022-03-15" "1")]][0]? =
      [[mkSampleRow "1" "2022-03-15" "1"]][0]? :=
  (claim9_no_mutation [[mkSampleRow "1" "2022-03-15" "1"]] 0
    [[mkSampleRow "1" "2022-03-15" "1"],
     [normRow (mkSampleRow "1" "2022-03-15" "1")],
     [normRow (mkSampleRow "1" "2022-03-15" "1")]] 2 rfl).1 0 (by decide)

/-- C10: deduplication keeps the first occurrence in input order: on a
ready collection, the record kept for an id is the coercion image of the
first input record with that id, and it is the only record of the output
with that id. -/
theorem claim10_keep_first (df : List Row) (b : Bool) (out : List Row)
    (v : Option Value) (r0 : Row)
    (hready : ∀ r ∈ df, rowReady r = true)
    (hout : (parse_data df b).1 = .ok out)
    (hfind : df.find? (fun r => decide (rowGet r "p1" = v)) = some r0) :
    normRow r0 ∈ out ∧
      ∀ r2 ∈ out, rowGet r2 "p1" = v → r2 = normRow r0 := by
  rw [parse_data_fst, parse_dataRes_ready df hready] at hout
  have hout2 : out = dedupAux [] (df.map normRow) := by
    simpa [drop_duplicatesP1] using hout.symm
  have hcomp : (fun r => decide (rowGet r "p1" = v)) ∘ normRow =
      (fun r => decide (rowGet r "p1" = v)) := by
    funext r
    simp [Function.comp, normRow_rowGet_p1]
  have hfind2 : (df.map normRow).find? (fun r => decide (rowGet r "p1" = v)) =
      some (normRow r0) := by
    rw [List.find?_map, hcomp, hfind]
    rfl
  have hmem : normRow r0 ∈ dedupAux [] (df.map normRow) :=
    dedupAux_find?_mem v [] (df.map normRow) (normRow r0) (by simp) hfind2
  have hkey0 : rowGet (normRow r0) "p1" = v := by
    have hp := List.find?_some hfind2
    simpa using hp
  refine ⟨hout2.symm ▸ hmem, ?_⟩
  intro r2 hr2 hkey2
  have hle := dedupAux_countP_le_one v [] (df.map normRow)
  exact countP_le_one_unique _ _ hle r2 (normRow r0) (hout2 ▸ hr2) hmem
    (by simpa using hkey2) (by simpa using hkey0)

/-- Witness for C10 at a two-record collection sharing one id: the kept
record is the image of the first occurrence. -/
theorem claim10_keep_first_witness :
    normRow (mkSampleRow "9" "2022-03-15" "1") ∈
      [normRow (mkSampleRow "9" "2022-03-15" "1")] :=
  (claim10_keep_first
    [mkSampleRow "9" "2022-03-15" "1", mkSampleRow "9" "2022-03-15" "2"] false
    [normRow (mkSampleRow "9" "2022-03-15" "1")] (some (Value.str "9"))
    (mkSampleRow "9" "2022-03-15" "1") (by decide) rfl (by decide)).1
